import Mathlib

/-!
Verification of the FDTD imaginary-time relaxation solver from
`2d box/2d free - 제출용.ipynb` (class `DirichletSystem`).

This file shallowly embeds the solver over the real numbers:

* `Boundary` ↦ the frozen dataclass `Boundary(start, end, step)`;
* a scalar field on the grid (`numpy` array) ↦ a function `(Fin d → ℕ) → ℝ`
  together with a shape `sh : Fin d → ℕ`; `np.sum` over an array ↦ `gridSum`
  over all valid index tuples;
* `DirichletSystem` ↦ a structure holding the constructor arguments; derived
  attributes of `__init__`/`_init_mesh` (`vol`, `time_len`, shapes, `linspace`
  axes, the sampled potential) become definitions on the structure;
* the mutable stepping loop of `solve` ↦ the fold `solveLoop` over a
  `LoopState` (solution field, `energy_series` as the list of recorded
  energies, `logs`), driven by `t_len` fuel, mirroring the loop body
  line by line; the straight-line trajectory of solution states is also
  exposed as `solAt`/`pxAt`/`kineAt`/`updatedAt` for stating per-iteration
  properties, and the two presentations are connected by `solveLoop_eq`.

The constructor always sets `self.pbc = False` and nothing in the repository
ever sets it to `True`, so the Dirichlet embedding fixes `pbc = false`
(the `bd_cond is None` test of `_apply_boundary` is kept).  The periodic
branch of the loop body (guarded by `self.pbc`) is embedded separately, for
one spatial axis, as `pbc_extrap`/`kine_pbc`/`step_pbc`: for two or more
axes that branch is not executable as written (the wrap-around `term +=`
lines broadcast shapes that do not match), so one axis is the only mode in
which the periodic code is well defined.

Python/numpy semantics notes used throughout:
* `int(x)` truncates towards zero: `pyInt`;
* `np.linspace(a, b, n)` returns `a + k*(b-a)/(n-1)` for `k < n`:
  `linspace`;
* `_prepare` subtracts in place, so later priors see the partially
  deflated field: `List.foldl`;
* in the loop body, `px` aliases `self.sol_mesh`, so the in-place
  deflation (and, in periodic mode, the in-place extrapolation write)
  are visible through `px`.
-/

noncomputable section

/-- The frozen dataclass `Boundary(start, end, step)` (the `end` field is
spelled `end_` because `end` is a Lean keyword). -/
structure Boundary where
  start : ℝ
  end_ : ℝ
  step : ℝ

/-- Python `int()` conversion on a real: truncation towards zero. -/
def pyInt (x : ℝ) : ℤ := if 0 ≤ x then ⌊x⌋ else ⌈x⌉

/-- A dense real scalar field on a `d`-dimensional index grid
(a `numpy` array viewed as its lookup function). -/
def GridField (d : ℕ) : Type := (Fin d → ℕ) → ℝ

/-- `np.sum` of `f` over an array of shape `sh`: the sum of `f` over all
valid index tuples. -/
def gridSum {d : ℕ} (sh : Fin d → ℕ) (f : GridField d) : ℝ :=
  ∑ idx ∈ Fintype.piFinset (fun i => Finset.range (sh i)), f idx

/-- `idx` addresses an actual array element of shape `sh`. -/
def validIdx {d : ℕ} (sh : Fin d → ℕ) (idx : Fin d → ℕ) : Prop :=
  ∀ i, idx i < sh i

/-- `idx` lies on the boundary of the grid: some coordinate is `0` or
`extent - 1` along its axis (the points zeroed by `_apply_boundary`). -/
def isBoundaryIdx {d : ℕ} (sh : Fin d → ℕ) (idx : Fin d → ℕ) : Prop :=
  ∃ i, idx i = 0 ∨ idx i = sh i - 1

instance {d : ℕ} (sh idx : Fin d → ℕ) : Decidable (isBoundaryIdx sh idx) :=
  inferInstanceAs (Decidable (∃ i, idx i = 0 ∨ idx i = sh i - 1))

/-- `np.linspace(dom.start, dom.end, n)` entry `k`, with
`n = pointCount dom` as built by `_init_mesh` (for `n ≥ 2` numpy uses the
uniform step `(end - start)/(n-1)` and hits both endpoints exactly). -/
def linspace (dom : Boundary) (n : ℕ) (k : ℕ) : ℝ :=
  dom.start + k * ((dom.end_ - dom.start) / ((n : ℝ) - 1))

/-- The per-axis point count `int((end - start)/step) + 1` of `_init_mesh`
(and of `time_len` in `__init__`). -/
def pointCount (dom : Boundary) : ℕ :=
  (pyInt ((dom.end_ - dom.start) / dom.step)).toNat + 1

/-- The constructor arguments of `DirichletSystem.__init__` for `d` spatial
axes.  `self.pbc = False` always (set in `__init__`, never mutated), so it is
not a field.  `pot` is the caller's potential function of the `d` spatial
coordinates. -/
structure DirichletSystem (d : ℕ) where
  pot : (Fin d → ℝ) → ℝ
  time_dom : Boundary
  spat_dom : Fin d → Boundary
  bd_cond : Option Unit
  max_iter : Option ℕ
  stop_tol : Option ℝ
  priors : List (GridField d)

namespace DirichletSystem

variable {d : ℕ} (S : DirichletSystem d)

/-- `self.vol = np.prod([dom.step for dom in self.spat_dom])`. -/
def vol : ℝ := ∏ i, (S.spat_dom i).step

/-- `self.time_len = int((time_dom.end - time_dom.start) / time_dom.step) + 1`. -/
def time_len : ℕ := pointCount S.time_dom

/-- `dt = self.time_dom.step` (bound at the top of `solve`). -/
def dt : ℝ := S.time_dom.step

/-- `self.sol_shape`: the per-axis point counts produced by `_init_mesh`. -/
def sh : Fin d → ℕ := fun i => pointCount (S.spat_dom i)

/-- `self.spaces[i][k]`: coordinate `k` of axis `i` (`np.linspace`). -/
def spaces (i : Fin d) (k : ℕ) : ℝ := linspace (S.spat_dom i) (S.sh i) k

/-- `self.sol_mesh = np.zeros(...)`: the zero-initialised solution field
built by `_init_mesh`. -/
def sol_mesh_init (_S : DirichletSystem d) : GridField d := fun _ => 0

/-- `self.pot_grid`: the potential sampled once at every grid point
(`_initialize` evaluates `self.pot` on the flattened meshgrid; with `'ij'`
indexing the point with index tuple `idx` has coordinates
`spaces i (idx i)`). -/
def pot_grid : GridField d := fun idx => S.pot fun i => S.spaces i (idx i)

/-- `DirichletSystem.normalize` of the `2d free` notebook:
`out = psi / sqrt(np.sum(psi * psi))`.  (The related `3d columb` variant
includes the factor `self.vol` inside the square root; the primary source
embedded here does not.) -/
def normalize (psi : GridField d) : GridField d :=
  fun idx => psi idx * (1 / Real.sqrt (gridSum S.sh fun j => psi j * psi j))

/-- One pass of the loop body of `_prepare`:
`inner = np.sum(psi * self.normalize(vec) * self.vol); self.sol_mesh -= inner * vec`. -/
def prepareStep (sol vec : GridField d) : GridField d :=
  fun idx =>
    sol idx - (gridSum S.sh fun j => sol j * S.normalize vec j * S.vol) * vec idx

/-- `DirichletSystem._prepare`: in-place deflation against each prior in
order (`-=` mutates `self.sol_mesh`, which `psi` aliases, so later priors
see the partially deflated field: a left fold). -/
def prepare (sol : GridField d) : GridField d :=
  S.priors.foldl (fun s vec => S.prepareStep s vec) sol

/-- `DirichletSystem._apply_boundary`: when `bd_cond is None` (and
`pbc == False`, which always holds), zero the two boundary hyperplanes of
every axis; otherwise do nothing. -/
def apply_boundary (sol : GridField d) : GridField d :=
  if S.bd_cond = none then
    fun idx => if isBoundaryIdx S.sh idx then 0 else sol idx
  else sol

/-- The kinetic-term accumulation of the loop body with `self.pbc == False`:
for each axis, the second-order central difference
`(px[i-1] + px[i+1] - 2 px[i]) / (2 step_i^2)` added on the interior slice
of that axis (boundary slots along the axis receive nothing). -/
def kineD (px : GridField d) : GridField d :=
  fun idx =>
    ∑ i, if 1 ≤ idx i ∧ idx i + 1 < S.sh i then
      (px (Function.update idx i (idx i - 1)) + px (Function.update idx i (idx i + 1))
        - 2 * px idx) / (2 * (S.spat_dom i).step ^ 2)
    else 0

/-- `beta = 1.0 / (1.0 + 0.5 * dt * self.pot_grid)`. -/
def beta : GridField d := fun idx => 1 / (1 + 0.5 * S.dt * S.pot_grid idx)

/-- `alpha = (1.0 - 0.5 * dt * self.pot_grid) * beta`. -/
def alpha : GridField d := fun idx => (1 - 0.5 * S.dt * S.pot_grid idx) * S.beta idx

/-- The semi-implicit update
`self.sol_mesh = alpha * self.sol_mesh; self.sol_mesh += dt * beta * kine`. -/
def updateF (px kine : GridField d) : GridField d :=
  fun idx => S.alpha idx * px idx + S.dt * S.beta idx * kine idx

/-- `energy_before`: the Rayleigh quotient
`(np.sum(pot_grid*px*px) - (kine*px).sum()) / (px*px).sum()`. -/
def rayleigh (px kine : GridField d) : ℝ :=
  (gridSum S.sh (fun j => S.pot_grid j * px j * px j)
      - gridSum S.sh fun j => kine j * px j)
    / gridSum S.sh fun j => px j * px j

/-- The value appended to `self.logs` during an update:
`sqrt(np.sum(psi * psi) * self.vol)` of the pre-normalisation field. -/
def lognorm (psi : GridField d) : ℝ :=
  Real.sqrt (gridSum S.sh (fun j => psi j * psi j) * S.vol)

/-- `t_len`: `self.max_iter` when it is given and smaller than
`self.time_len`, otherwise `self.time_len`. -/
def tLen : ℕ :=
  match S.max_iter with
  | some m => if m < S.time_len then m else S.time_len
  | none => S.time_len

/-- The solution state at loop entry: `set_psi0_by_grid`/`_initialize`
apply the boundary condition to the ingested field, and `solve` calls
`self._prepare()` once before the loop. -/
def solveStart (psi0 : GridField d) : GridField d :=
  S.prepare (S.apply_boundary psi0)

/-- The solution state after the body of iteration `n` (Dirichlet mode):
deflate in place (`px` aliases `self.sol_mesh`), then — only when
`n + 1 < self.time_len` — update semi-implicitly and renormalise;
otherwise the iteration leaves the deflated field. -/
def stepSol (n : ℕ) (sol : GridField d) : GridField d :=
  let px := S.prepare sol
  if n + 1 < S.time_len then S.normalize (S.updateF px (S.kineD px)) else px

/-- The solution trajectory: state at the start of iteration `n`
(equivalently, after `n` completed iterations). -/
def solAt (psi0 : GridField d) : ℕ → GridField d
  | 0 => S.solveStart psi0
  | n + 1 => S.stepSol n (solAt psi0 n)

/-- `px` of iteration `n`: the freshly deflated solution the kinetic term,
energy and update of that iteration are computed from. -/
def pxAt (psi0 : GridField d) (n : ℕ) : GridField d := S.prepare (S.solAt psi0 n)

/-- `kine` of iteration `n`. -/
def kineAt (psi0 : GridField d) (n : ℕ) : GridField d := S.kineD (S.pxAt psi0 n)

/-- The pre-normalisation updated field of iteration `n`. -/
def updatedAt (psi0 : GridField d) (n : ℕ) : GridField d :=
  S.updateF (S.pxAt psi0 n) (S.kineAt psi0 n)

/-- `energy_before` of iteration `n` (the value stored in
`self.energy_series[n]`). -/
def energyAt (psi0 : GridField d) (n : ℕ) : ℝ :=
  S.rayleigh (S.pxAt psi0 n) (S.kineAt psi0 n)

/-- The early-stop test of iteration `n`, phrased on the trajectory:
`n > 0`, a tolerance is configured, and
`abs(1 - energy_series[n-1] / energy_before) < stop_tol`. -/
def stopAtP (psi0 : GridField d) (n : ℕ) : Prop :=
  0 < n ∧ ∃ tol, S.stop_tol = some tol ∧
    |1 - S.energyAt psi0 (n - 1) / S.energyAt psi0 n| < tol

end DirichletSystem

/-- The mutable state of `solve`: the evolving `self.sol_mesh`, the recorded
prefix of `self.energy_series`, and `self.logs`. -/
structure LoopState (d : ℕ) where
  sol : GridField d
  es : List ℝ
  logs : List ℝ

namespace DirichletSystem

variable {d : ℕ} (S : DirichletSystem d)

/-- The `break` test as executed: `n > 0`, `stop_tol is not None`, and
`abs(1 - energy_series[n-1] / energy_before) < stop_tol`, where `es'` is the
recorded series including index `n`. -/
def stopCheck (es' : List ℝ) (n : ℕ) (e : ℝ) : Prop :=
  0 < n ∧ ∃ tol, S.stop_tol = some tol ∧ |1 - es'.getD (n - 1) 0 / e| < tol

open Classical in
/-- The `for n in range(0, t_len)` loop of `solve` with `r` iterations left,
current iteration index `n` and state `st`.  One pass: rebind `px` (which
aliases `self.sol_mesh`) after in-place deflation, accumulate `kine`,
record `energy_before`, and when `n + 1 < self.time_len` update, log the
pre-normalisation norm and renormalise; finally test the `break`. -/
def solveLoop : ℕ → ℕ → LoopState d → LoopState d
  | _, 0, st => st
  | n, r + 1, st =>
    let px := S.prepare st.sol
    let kine := S.kineD px
    let e := S.rayleigh px kine
    let es' := st.es ++ [e]
    let sol' := if n + 1 < S.time_len then S.normalize (S.updateF px kine) else px
    let logs' := if n + 1 < S.time_len then st.logs ++ [S.lognorm (S.updateF px kine)]
      else st.logs
    if S.stopCheck es' n e then ⟨sol', es', logs'⟩
    else solveLoop (n + 1) r ⟨sol', es', logs'⟩

/-- `DirichletSystem.solve` run on the ingested initial condition `psi0`:
the final solution, the recorded energy series and the norm logs. -/
def solve (psi0 : GridField d) : LoopState d :=
  S.solveLoop 0 S.tLen ⟨S.solveStart psi0, [], []⟩

open Classical in
/-- The iteration index at which the loop leaves, searched from `n` with
`r` iterations of fuel: the loop completes iteration `n` and leaves early
when `stopAtP` holds there. -/
def stopSearch (psi0 : GridField d) : ℕ → ℕ → ℕ
  | n, 0 => n
  | n, r + 1 => if S.stopAtP psi0 n then n + 1 else stopSearch psi0 (n + 1) r

/-- The number of completed iterations of `solve`. -/
def solveIters (psi0 : GridField d) : ℕ := S.stopSearch psi0 0 S.tLen

/-- The `self.logs` contents after `n` completed iterations: one entry per
iteration that performed the update (`k + 1 < self.time_len`). -/
def logsSpec (psi0 : GridField d) (n : ℕ) : List ℝ :=
  ((List.range n).filter fun k => k + 1 < S.time_len).map
    fun k => S.lognorm (S.updatedAt psi0 k)

end DirichletSystem

/-! ### The periodic branch (`self.pbc == True`), one spatial axis

`self.pbc` starts `False` and the repository never sets it; the branch below
is the dynamics the loop body defines when the flag is enabled by hand.  For
`d ≥ 2` axes the wrap-around `term +=` statements broadcast a hyperplane of
the wrong shape and `numpy` raises, so one axis is the only case in which
the periodic code runs; fields are plain sequences `ℕ → ℝ` with an explicit
extent `l`. -/

/-- `np.sum` over a 1-D array of length `l`. -/
def gridSum1 (l : ℕ) (f : ℕ → ℝ) : ℝ := ∑ k ∈ Finset.range l, f k

/-- `DirichletSystem.normalize` on a 1-D array. -/
def normalize1 (l : ℕ) (psi : ℕ → ℝ) : ℕ → ℝ :=
  fun k => psi k * (1 / Real.sqrt (gridSum1 l fun j => psi j * psi j))

/-- `DirichletSystem._prepare` on a 1-D array (left fold of the in-place
deflation passes). -/
def prepare1 (l : ℕ) (vol : ℝ) (priors : List (ℕ → ℝ)) (sol : ℕ → ℝ) : ℕ → ℝ :=
  priors.foldl
    (fun s vec => fun k =>
      s k - (gridSum1 l fun j => s j * normalize1 l vec j * vol) * vec k)
    sol

/-- The in-place extrapolation write
`px[-1] = px[0] + (1/3) * px[-2] - (1/3) * px[1]` on an array of length `l`
(the right-hand side reads the pre-write values, as numpy does). -/
def pbc_extrap (l : ℕ) (px : ℕ → ℝ) : ℕ → ℝ :=
  fun k => if k = l - 1 then px 0 + (1/3) * px (l - 2) - (1/3) * px 1 else px k

/-- The periodic kinetic term on the (already extrapolated) field `px`:
central difference on the interior plus the wrap-around correction
`px[-2] + px[1] - px[0] - px[-1]`, which numpy broadcasting adds to every
interior entry, all divided by `2 * step^2`. -/
def kine_pbc (l : ℕ) (s : ℝ) (px : ℕ → ℝ) : ℕ → ℝ :=
  fun k => if 1 ≤ k ∧ k + 1 < l then
    (px (k - 1) + px (k + 1) - 2 * px k
      + (px (l - 2) + px 1 - px 0 - px (l - 1))) / (2 * s ^ 2)
  else 0

/-- The body of iteration `n` of `solve` in periodic mode (one axis):
deflate in place, extrapolate the last point in place (visible through the
alias `px`), accumulate the periodic kinetic term, and when
`n + 1 < time_len` update semi-implicitly and renormalise. -/
def step_pbc (l : ℕ) (s dt vol : ℝ) (pot : ℕ → ℝ) (time_len : ℕ)
    (priors : List (ℕ → ℝ)) (n : ℕ) (sol : ℕ → ℝ) : ℕ → ℝ :=
  let px := pbc_extrap l (prepare1 l vol priors sol)
  let kine := kine_pbc l s px
  if n + 1 < time_len then
    normalize1 l fun k =>
      (1 - 0.5 * dt * pot k) * (1 / (1 + 0.5 * dt * pot k)) * px k
        + dt * (1 / (1 + 0.5 * dt * pot k)) * kine k
  else px

/-- The periodic-mode solution trajectory (one axis): with `pbc == True`,
`_apply_boundary` does nothing, so ingestion keeps `psi0` and the pre-loop
`_prepare` is the whole of `solveStart`. -/
def solPBCAt (l : ℕ) (s dt vol : ℝ) (pot : ℕ → ℝ) (time_len : ℕ)
    (priors : List (ℕ → ℝ)) (psi0 : ℕ → ℝ) : ℕ → ℕ → ℝ
  | 0 => prepare1 l vol priors psi0
  | n + 1 => step_pbc l s dt vol pot time_len priors n
      (solPBCAt l s dt vol pot time_len priors psi0 n)

/-! ### Ingestion with an explicit array shape (one axis)

`set_psi0_by_grid`/`_initialize` rebind `self.sol_mesh` to the caller's
array without any shape test; the only indices touched at initialisation are
the boundary writes of `_apply_boundary`.  To talk about shape mismatches
the field must carry its own extent, so the ingestion path is modelled once
more on `List ℝ` for one spatial axis: a numpy write at an out-of-range
index raises `IndexError`, modelled as `none`. -/

/-- A numpy scalar write `xs[i] = a`: `IndexError` (`none`) when `i` is out
of range.  (The indices `_apply_boundary` writes are the non-negative `0`
and `l - 1`, so negative indexing does not arise.) -/
def np_set (xs : List ℝ) (i : ℕ) (a : ℝ) : Option (List ℝ) :=
  if i < xs.length then some (xs.set i a) else none

/-- `_apply_boundary` on the ingested 1-D array: write `0.0` at index `0`
and at index `l - 1`, where `l` is the grid extent recorded by
`_init_mesh` (not the length of the ingested array). -/
def apply_boundary_1d (l : ℕ) (xs : List ℝ) : Option (List ℝ) :=
  (np_set xs 0 0).bind fun ys => np_set ys (l - 1) 0

/-- `set_psi0_by_grid` → `_initialize` on a 1-D grid of extent `l`:
`self.sol_mesh = psi0_grid` followed by `self._apply_boundary()`; no shape
check of any kind is performed. -/
def set_psi0_1d (l : ℕ) (psi0 : List ℝ) : Option (List ℝ) :=
  apply_boundary_1d l psi0

/-! ### Concrete instances used by counterexamples and witnesses -/

/-- A one-axis index: every `idx : Fin 1 → ℕ` is `oneIdx (idx 0)`. -/
def oneIdx (k : ℕ) : Fin 1 → ℕ := fun _ => k

/-- The seed field `psi0` used by the concrete runs: `1` at the middle point
of a three-point axis, `0` elsewhere. -/
def psi01 : GridField 1 := fun idx => if idx 0 = 1 then 1 else 0

/-- A free particle on one axis of three points (`spat = (0, 1, 1/2)`),
three time steps (`time = (0, 2, 1)`), no priors, no early stop. -/
def S1 : DirichletSystem 1 where
  pot := fun _ => 0
  time_dom := ⟨0, 2, 1⟩
  spat_dom := fun _ => ⟨0, 1, 1/2⟩
  bd_cond := none
  max_iter := none
  stop_tol := none
  priors := []

/-- A prior state that does not vanish on the grid boundary:
`(3, 4, 0)` on the three-point axis (its squared sum is `25`). -/
def v3 : GridField 1 := fun idx => if idx 0 = 0 then 3 else if idx 0 = 1 then 4 else 0

/-- `S1` with the boundary-nonzero prior `v3` supplied. -/
def S3 : DirichletSystem 1 where
  pot := fun _ => 0
  time_dom := ⟨0, 2, 1⟩
  spat_dom := fun _ => ⟨0, 1, 1/2⟩
  bd_cond := none
  max_iter := none
  stop_tol := none
  priors := [v3]

/-- A two-iteration configuration (`time = (0, 1, 1)`, so `time_len = 2`),
no tolerance, no override. -/
def S4 : DirichletSystem 1 where
  pot := fun _ => 0
  time_dom := ⟨0, 1, 1⟩
  spat_dom := fun _ => ⟨0, 1, 1/2⟩
  bd_cond := none
  max_iter := none
  stop_tol := none
  priors := []

/-- `time_len = 3` but `max_iter = 1`: the override truncates the schedule. -/
def S5 : DirichletSystem 1 where
  pot := fun _ => 0
  time_dom := ⟨0, 2, 1⟩
  spat_dom := fun _ => ⟨0, 1, 1/2⟩
  bd_cond := none
  max_iter := some 1
  stop_tol := none
  priors := []

/-- A single-iteration configuration (`time = (0, 0, 1)`, so `time_len = 1`). -/
def S0 : DirichletSystem 1 where
  pot := fun _ => 0
  time_dom := ⟨0, 0, 1⟩
  spat_dom := fun _ => ⟨0, 1, 1/2⟩
  bd_cond := none
  max_iter := none
  stop_tol := none
  priors := []

/-- The initial field of the periodic counterexample run
(`(0, 3, 6, 5)` on four points; the last entry is overwritten by the
extrapolation before it is ever read). -/
def psiP : ℕ → ℝ :=
  fun k => if k = 0 then 0 else if k = 1 then 3 else if k = 2 then 6 else
    if k = 3 then 5 else 0

/-! ### Helper lemmas: sums on one axis, basic evaluations -/

theorem oneIdx_eta (idx : Fin 1 → ℕ) : idx = oneIdx (idx 0) := by
  funext i
  have h : i = 0 := Subsingleton.elim i 0
  rw [h]
  rfl

theorem update_oneIdx (idx : Fin 1 → ℕ) (v : ℕ) : Function.update idx 0 v = oneIdx v := by
  funext i
  have h : i = 0 := Subsingleton.elim i 0
  rw [h, Function.update_same]
  rfl

theorem gridSum_one (sh : Fin 1 → ℕ) (f : GridField 1) :
    gridSum sh f = ∑ k ∈ Finset.range (sh 0), f (oneIdx k) := by
  unfold gridSum
  refine Finset.sum_bij' (fun idx _ => idx 0) (fun k _ => oneIdx k) ?_ ?_ ?_ ?_ ?_
  · intro idx hidx
    exact (Fintype.mem_piFinset.mp hidx) 0
  · intro k hk
    refine Fintype.mem_piFinset.mpr fun i => ?_
    have h : i = 0 := Subsingleton.elim i 0
    rw [h]
    exact hk
  · intro idx hidx
    exact (oneIdx_eta idx).symm
  · intro k hk
    rfl
  · intro idx hidx
    rw [← oneIdx_eta idx]

theorem gridSum_nonneg_sq {d : ℕ} (sh : Fin d → ℕ) (f : GridField d) :
    0 ≤ gridSum sh fun j => f j * f j :=
  Finset.sum_nonneg fun j _ => mul_self_nonneg (f j)

theorem prepare_of_nil {d : ℕ} (S : DirichletSystem d) (h : S.priors = [])
    (sol : GridField d) : S.prepare sol = sol := by
  unfold DirichletSystem.prepare
  rw [h]
  rfl

theorem prepare_of_single {d : ℕ} (S : DirichletSystem d) (v : GridField d)
    (h : S.priors = [v]) (sol : GridField d) : S.prepare sol = S.prepareStep sol v := by
  unfold DirichletSystem.prepare
  rw [h]
  rfl

theorem sqrt_nine : Real.sqrt 9 = 3 := by
  rw [show (9 : ℝ) = 3 ^ 2 by norm_num, Real.sqrt_sq (by norm_num)]

theorem sqrt_twentyfive : Real.sqrt 25 = 5 := by
  rw [show (25 : ℝ) = 5 ^ 2 by norm_num, Real.sqrt_sq (by norm_num)]

theorem pyInt_two : pyInt 2 = 2 := by
  unfold pyInt
  rw [if_pos (by norm_num)]
  exact Int.floor_ofNat 2

theorem pyInt_one : pyInt 1 = 1 := by
  unfold pyInt
  rw [if_pos (by norm_num)]
  exact Int.floor_one

theorem pyInt_zero : pyInt 0 = 0 := by
  unfold pyInt
  rw [if_pos (by norm_num)]
  exact Int.floor_zero

theorem pyInt_natCast (n : ℕ) : pyInt (n : ℝ) = n := by
  unfold pyInt
  rw [if_pos (by positivity), Int.floor_natCast]

theorem pointCount_of_cast (dom : Boundary) (n : ℕ)
    (h : (dom.end_ - dom.start) / dom.step = (n : ℝ)) : pointCount dom = n + 1 := by
  unfold pointCount
  rw [h, pyInt_natCast]
  simp

theorem time_len_S1 : S1.time_len = 3 := by
  unfold DirichletSystem.time_len
  rw [pointCount_of_cast S1.time_dom 2 (by norm_num [S1])]

theorem sh_S1 : S1.sh = fun _ => 3 := by
  funext i
  unfold DirichletSystem.sh
  rw [pointCount_of_cast (S1.spat_dom i) 2 (by norm_num [S1])]

theorem vol_S1 : S1.vol = 1 / 2 := by
  unfold DirichletSystem.vol
  rw [Fin.prod_univ_one]
  norm_num [S1]

theorem time_len_S3 : S3.time_len = 3 := by
  unfold DirichletSystem.time_len
  rw [pointCount_of_cast S3.time_dom 2 (by norm_num [S3])]

theorem sh_S3 : S3.sh = fun _ => 3 := by
  funext i
  unfold DirichletSystem.sh
  rw [pointCount_of_cast (S3.spat_dom i) 2 (by norm_num [S3])]

theorem vol_S3 : S3.vol = 1 / 2 := by
  unfold DirichletSystem.vol
  rw [Fin.prod_univ_one]
  norm_num [S3]

theorem time_len_S4 : S4.time_len = 2 := by
  unfold DirichletSystem.time_len
  rw [pointCount_of_cast S4.time_dom 1 (by norm_num [S4])]

theorem time_len_S5 : S5.time_len = 3 := by
  unfold DirichletSystem.time_len
  rw [pointCount_of_cast S5.time_dom 2 (by norm_num [S5])]

theorem time_len_S0 : S0.time_len = 1 := by
  unfold DirichletSystem.time_len
  rw [pointCount_of_cast S0.time_dom 0 (by norm_num [S0])]

theorem tLen_S4 : S4.tLen = 2 := by
  unfold DirichletSystem.tLen
  rw [show S4.max_iter = none from rfl, time_len_S4]

theorem tLen_S5 : S5.tLen = 1 := by
  unfold DirichletSystem.tLen
  rw [show S5.max_iter = some 1 from rfl]
  rw [time_len_S5]
  norm_num

theorem tLen_S0 : S0.tLen = 1 := by
  unfold DirichletSystem.tLen
  rw [show S0.max_iter = none from rfl, time_len_S0]

theorem apply_boundary_psi01 (S : DirichletSystem 1) (hbd : S.bd_cond = none)
    (hsh : S.sh = fun _ => 3) : S.apply_boundary psi01 = psi01 := by
  unfold DirichletSystem.apply_boundary
  rw [if_pos hbd]
  funext idx
  by_cases h : isBoundaryIdx S.sh idx
  · rw [if_pos h]
    obtain ⟨i, hi⟩ := h
    have hi0 : i = 0 := Subsingleton.elim i 0
    rw [hi0, hsh] at hi
    unfold psi01
    rcases hi with h0 | h2
    · rw [h0]
      norm_num
    · rw [h2]
      norm_num
  · rw [if_neg h]

/-! ### Concrete trajectory of `S1` (free particle, three points, `dt = 1`) -/

theorem solAt_S1_0 : S1.solAt psi01 0 = psi01 := by
  show S1.solveStart psi01 = psi01
  unfold DirichletSystem.solveStart
  rw [apply_boundary_psi01 S1 rfl sh_S1, prepare_of_nil S1 rfl]

theorem pxAt_S1_0 : S1.pxAt psi01 0 = psi01 := by
  unfold DirichletSystem.pxAt
  rw [solAt_S1_0, prepare_of_nil S1 rfl]

theorem alpha_S1 (idx : Fin 1 → ℕ) : S1.alpha idx = 1 := by
  unfold DirichletSystem.alpha DirichletSystem.beta
  rw [show S1.pot_grid idx = 0 from rfl, show S1.dt = 1 from rfl]
  norm_num

theorem beta_S1 (idx : Fin 1 → ℕ) : S1.beta idx = 1 := by
  unfold DirichletSystem.beta
  rw [show S1.pot_grid idx = 0 from rfl, show S1.dt = 1 from rfl]
  norm_num

theorem kineAt_S1_0 : S1.kineAt psi01 0 (oneIdx 0) = 0 := by
  unfold DirichletSystem.kineAt
  rw [pxAt_S1_0]
  unfold DirichletSystem.kineD
  rw [Fin.sum_univ_one]
  have hc : ¬(1 ≤ oneIdx 0 0 ∧ oneIdx 0 0 + 1 < S1.sh 0) := by
    simp [oneIdx]
  rw [if_neg hc]

theorem kineAt_S1_1 : S1.kineAt psi01 0 (oneIdx 1) = -4 := by
  unfold DirichletSystem.kineAt
  rw [pxAt_S1_0]
  unfold DirichletSystem.kineD
  rw [Fin.sum_univ_one]
  have hc : 1 ≤ oneIdx 1 0 ∧ oneIdx 1 0 + 1 < S1.sh 0 := by
    rw [sh_S1]
    simp [oneIdx]
  rw [if_pos hc, update_oneIdx, update_oneIdx]
  rw [show (S1.spat_dom 0).step = 1/2 from rfl]
  norm_num [psi01, oneIdx]

theorem kineAt_S1_2 : S1.kineAt psi01 0 (oneIdx 2) = 0 := by
  unfold DirichletSystem.kineAt
  rw [pxAt_S1_0]
  unfold DirichletSystem.kineD
  rw [Fin.sum_univ_one]
  have hc : ¬(1 ≤ oneIdx 2 0 ∧ oneIdx 2 0 + 1 < S1.sh 0) := by
    rw [sh_S1]
    simp [oneIdx]
  rw [if_neg hc]

theorem updatedAt_S1_0 : S1.updatedAt psi01 0 (oneIdx 0) = 0 := by
  unfold DirichletSystem.updatedAt DirichletSystem.updateF
  rw [alpha_S1, beta_S1, pxAt_S1_0, kineAt_S1_0, show S1.dt = 1 from rfl]
  norm_num [psi01, oneIdx]

theorem updatedAt_S1_1 : S1.updatedAt psi01 0 (oneIdx 1) = -3 := by
  unfold DirichletSystem.updatedAt DirichletSystem.updateF
  rw [alpha_S1, beta_S1, pxAt_S1_0, kineAt_S1_1, show S1.dt = 1 from rfl]
  norm_num [psi01, oneIdx]

theorem updatedAt_S1_2 : S1.updatedAt psi01 0 (oneIdx 2) = 0 := by
  unfold DirichletSystem.updatedAt DirichletSystem.updateF
  rw [alpha_S1, beta_S1, pxAt_S1_0, kineAt_S1_2, show S1.dt = 1 from rfl]
  norm_num [psi01, oneIdx]

theorem updatedAt_S1_sq :
    gridSum S1.sh (fun j => S1.updatedAt psi01 0 j * S1.updatedAt psi01 0 j) = 9 := by
  rw [gridSum_one, sh_S1]
  rw [Finset.sum_range_succ, Finset.sum_range_succ, Finset.sum_range_succ,
    Finset.sum_range_zero]
  rw [updatedAt_S1_0, updatedAt_S1_1, updatedAt_S1_2]
  norm_num

theorem solAt_S1_1 : S1.solAt psi01 1 = S1.normalize (S1.updatedAt psi01 0) := by
  show S1.stepSol 0 (S1.solAt psi01 0) = _
  simp only [DirichletSystem.stepSol]
  rw [if_pos (by rw [time_len_S1]; norm_num)]
  rfl

theorem solAt_S1_1_sq :
    gridSum S1.sh (fun j => S1.solAt psi01 1 j * S1.solAt psi01 1 j) = 1 := by
  rw [solAt_S1_1]
  unfold DirichletSystem.normalize
  rw [updatedAt_S1_sq, sqrt_nine, gridSum_one, sh_S1]
  rw [Finset.sum_range_succ, Finset.sum_range_succ, Finset.sum_range_succ,
    Finset.sum_range_zero]
  rw [updatedAt_S1_0, updatedAt_S1_1, updatedAt_S1_2]
  norm_num

/-! ### Concrete trajectory of `S3` (prior `v3` touching the boundary) -/

theorem v3_sq : gridSum S3.sh (fun j => v3 j * v3 j) = 25 := by
  rw [gridSum_one, sh_S3]
  rw [Finset.sum_range_succ, Finset.sum_range_succ, Finset.sum_range_succ,
    Finset.sum_range_zero]
  norm_num [v3, oneIdx]

theorem normalize_v3 (idx : Fin 1 → ℕ) : S3.normalize v3 idx = v3 idx * (1/5) := by
  unfold DirichletSystem.normalize
  rw [v3_sq, sqrt_twentyfive]

theorem solAt_S3_0 : S3.solAt psi01 0 = S3.prepareStep psi01 v3 := by
  show S3.solveStart psi01 = _
  unfold DirichletSystem.solveStart
  rw [apply_boundary_psi01 S3 rfl sh_S3, prepare_of_single S3 v3 rfl]

theorem inner1_S3 : gridSum S3.sh (fun j => psi01 j * S3.normalize v3 j * S3.vol) = 2/5 := by
  rw [gridSum_one, sh_S3]
  rw [Finset.sum_range_succ, Finset.sum_range_succ, Finset.sum_range_succ,
    Finset.sum_range_zero]
  rw [normalize_v3, normalize_v3, normalize_v3, vol_S3]
  norm_num [psi01, v3, oneIdx]

theorem solAt_S3_0_val0 : S3.solAt psi01 0 (oneIdx 0) = -(6/5) := by
  rw [solAt_S3_0]
  unfold DirichletSystem.prepareStep
  rw [inner1_S3]
  norm_num [psi01, v3, oneIdx]

theorem solAt_S3_0_val1 : S3.solAt psi01 0 (oneIdx 1) = -(3/5) := by
  rw [solAt_S3_0]
  unfold DirichletSystem.prepareStep
  rw [inner1_S3]
  norm_num [psi01, v3, oneIdx]

theorem solAt_S3_0_val2 : S3.solAt psi01 0 (oneIdx 2) = 0 := by
  rw [solAt_S3_0]
  unfold DirichletSystem.prepareStep
  rw [inner1_S3]
  norm_num [psi01, v3, oneIdx]

theorem inner2_S3 :
    gridSum S3.sh (fun j => S3.solAt psi01 0 j * S3.normalize v3 j * S3.vol) = -(3/5) := by
  rw [gridSum_one, sh_S3]
  rw [Finset.sum_range_succ, Finset.sum_range_succ, Finset.sum_range_succ,
    Finset.sum_range_zero]
  rw [normalize_v3, normalize_v3, normalize_v3, vol_S3,
    solAt_S3_0_val0, solAt_S3_0_val1, solAt_S3_0_val2]
  norm_num [v3, oneIdx]

theorem pxAt_S3_0 : S3.pxAt psi01 0 = S3.prepareStep (S3.solAt psi01 0) v3 := by
  unfold DirichletSystem.pxAt
  rw [prepare_of_single S3 v3 rfl]

theorem pxAt_S3_0_val0 : S3.pxAt psi01 0 (oneIdx 0) = 3/5 := by
  rw [pxAt_S3_0]
  unfold DirichletSystem.prepareStep
  rw [inner2_S3, solAt_S3_0_val0]
  norm_num [v3, oneIdx]

theorem alpha_S3 (idx : Fin 1 → ℕ) : S3.alpha idx = 1 := by
  unfold DirichletSystem.alpha DirichletSystem.beta
  rw [show S3.pot_grid idx = 0 from rfl, show S3.dt = 1 from rfl]
  norm_num

theorem beta_S3 (idx : Fin 1 → ℕ) : S3.beta idx = 1 := by
  unfold DirichletSystem.beta
  rw [show S3.pot_grid idx = 0 from rfl, show S3.dt = 1 from rfl]
  norm_num

theorem kineAt_S3_val0 : S3.kineAt psi01 0 (oneIdx 0) = 0 := by
  unfold DirichletSystem.kineAt DirichletSystem.kineD
  rw [Fin.sum_univ_one]
  have hc : ¬(1 ≤ oneIdx 0 0 ∧ oneIdx 0 0 + 1 < S3.sh 0) := by
    simp [oneIdx]
  rw [if_neg hc]

theorem updatedAt_S3_val0 : S3.updatedAt psi01 0 (oneIdx 0) = 3/5 := by
  unfold DirichletSystem.updatedAt DirichletSystem.updateF
  rw [alpha_S3, beta_S3, kineAt_S3_val0, pxAt_S3_0_val0, show S3.dt = 1 from rfl]
  norm_num

theorem updatedAt_S3_sq_pos :
    0 < gridSum S3.sh (fun j => S3.updatedAt psi01 0 j * S3.updatedAt psi01 0 j) := by
  rw [gridSum_one, sh_S3]
  have h1 : S3.updatedAt psi01 0 (oneIdx 0) * S3.updatedAt psi01 0 (oneIdx 0)
      ≤ ∑ k ∈ Finset.range 3,
        S3.updatedAt psi01 0 (oneIdx k) * S3.updatedAt psi01 0 (oneIdx k) := by
    refine Finset.single_le_sum
      (f := fun k => S3.updatedAt psi01 0 (oneIdx k) * S3.updatedAt psi01 0 (oneIdx k))
      (fun k _ => mul_self_nonneg _) ?_
    norm_num
  rw [updatedAt_S3_val0] at h1
  nlinarith

theorem solAt_S3_1 : S3.solAt psi01 1 = S3.normalize (S3.updatedAt psi01 0) := by
  show S3.stepSol 0 (S3.solAt psi01 0) = _
  simp only [DirichletSystem.stepSol]
  rw [if_pos (by rw [time_len_S3]; norm_num)]
  rfl

/-! ### The loop computes the trajectory -/

theorem getD_map_range (f : ℕ → ℝ) (m k : ℕ) (h : k < m) :
    ((List.range m).map f).getD k 0 = f k := by
  have hl : k < ((List.range m).map f).length := by simpa using h
  rw [List.getD_eq_getElem _ _ hl]
  simp

theorem logsSpec_succ {d : ℕ} (S : DirichletSystem d) (psi0 : GridField d) (n : ℕ) :
    S.logsSpec psi0 (n + 1) = S.logsSpec psi0 n
      ++ (if n + 1 < S.time_len then [S.lognorm (S.updatedAt psi0 n)] else []) := by
  unfold DirichletSystem.logsSpec
  rw [List.range_succ, List.filter_append, List.map_append]
  congr 1
  by_cases h : n + 1 < S.time_len
  · rw [if_pos h]
    simp [h]
  · rw [if_neg h]
    simp [h]

theorem stopCheck_iff {d : ℕ} (S : DirichletSystem d) (psi0 : GridField d) (n : ℕ) :
    S.stopCheck ((List.range (n + 1)).map (S.energyAt psi0)) n (S.energyAt psi0 n)
      ↔ S.stopAtP psi0 n := by
  unfold DirichletSystem.stopCheck DirichletSystem.stopAtP
  constructor
  · rintro ⟨hn, tol, htol, herr⟩
    refine ⟨hn, tol, htol, ?_⟩
    rwa [getD_map_range _ _ _ (by omega)] at herr
  · rintro ⟨hn, tol, htol, herr⟩
    refine ⟨hn, tol, htol, ?_⟩
    rwa [getD_map_range _ _ _ (by omega)]

open Classical in
theorem solveLoop_succ {d : ℕ} (S : DirichletSystem d) (psi0 : GridField d) (n r : ℕ) :
    S.solveLoop n (r + 1)
        ⟨S.solAt psi0 n, (List.range n).map (S.energyAt psi0), S.logsSpec psi0 n⟩
      = if S.stopAtP psi0 n then
          ⟨S.solAt psi0 (n + 1), (List.range (n + 1)).map (S.energyAt psi0),
            S.logsSpec psi0 (n + 1)⟩
        else S.solveLoop (n + 1) r
          ⟨S.solAt psi0 (n + 1), (List.range (n + 1)).map (S.energyAt psi0),
            S.logsSpec psi0 (n + 1)⟩ := by
  have hes : (List.range n).map (S.energyAt psi0)
        ++ [S.rayleigh (S.prepare (S.solAt psi0 n)) (S.kineD (S.prepare (S.solAt psi0 n)))]
      = (List.range (n + 1)).map (S.energyAt psi0) := by
    rw [List.range_succ, List.map_append]
    rfl
  have hsol : (if n + 1 < S.time_len then
        S.normalize (S.updateF (S.prepare (S.solAt psi0 n))
          (S.kineD (S.prepare (S.solAt psi0 n))))
      else S.prepare (S.solAt psi0 n)) = S.solAt psi0 (n + 1) := rfl
  have hlogs : (if n + 1 < S.time_len then S.logsSpec psi0 n
        ++ [S.lognorm (S.updateF (S.prepare (S.solAt psi0 n))
            (S.kineD (S.prepare (S.solAt psi0 n))))]
      else S.logsSpec psi0 n) = S.logsSpec psi0 (n + 1) := by
    rw [logsSpec_succ]
    by_cases h : n + 1 < S.time_len
    · rw [if_pos h, if_pos h]
      rfl
    · rw [if_neg h, if_neg h]
      rw [List.append_nil]
  have he : S.rayleigh (S.prepare (S.solAt psi0 n)) (S.kineD (S.prepare (S.solAt psi0 n)))
      = S.energyAt psi0 n := rfl
  simp only [DirichletSystem.solveLoop]
  rw [hes, hsol, hlogs, he]
  rw [if_congr (stopCheck_iff S psi0 n) rfl rfl]

open Classical in
theorem stopSearch_succ {d : ℕ} (S : DirichletSystem d) (psi0 : GridField d) (n r : ℕ) :
    S.stopSearch psi0 n (r + 1)
      = if S.stopAtP psi0 n then n + 1 else S.stopSearch psi0 (n + 1) r := by
  simp only [DirichletSystem.stopSearch]

theorem solveLoop_eq {d : ℕ} (S : DirichletSystem d) (psi0 : GridField d) :
    ∀ r n, S.solveLoop n r
        ⟨S.solAt psi0 n, (List.range n).map (S.energyAt psi0), S.logsSpec psi0 n⟩
      = ⟨S.solAt psi0 (S.stopSearch psi0 n r),
          (List.range (S.stopSearch psi0 n r)).map (S.energyAt psi0),
          S.logsSpec psi0 (S.stopSearch psi0 n r)⟩ := by
  intro r
  induction r with
  | zero => intro n; rfl
  | succ r ih =>
    intro n
    rw [solveLoop_succ, stopSearch_succ]
    by_cases h : S.stopAtP psi0 n
    · rw [if_pos h, if_pos h]
    · rw [if_neg h, if_neg h]
      exact ih (n + 1)

theorem solve_eq {d : ℕ} (S : DirichletSystem d) (psi0 : GridField d) :
    S.solve psi0 = ⟨S.solAt psi0 (S.solveIters psi0),
      (List.range (S.solveIters psi0)).map (S.energyAt psi0),
      S.logsSpec psi0 (S.solveIters psi0)⟩ := by
  unfold DirichletSystem.solve DirichletSystem.solveIters
  have h0 := solveLoop_eq S psi0 S.tLen 0
  simpa [DirichletSystem.logsSpec] using h0

/-! ### Characterising when the loop leaves -/

theorem stopSearch_le {d : ℕ} (S : DirichletSystem d) (psi0 : GridField d) :
    ∀ r n, S.stopSearch psi0 n r ≤ n + r := by
  intro r
  induction r with
  | zero => intro n; simp [DirichletSystem.stopSearch]
  | succ r ih =>
    intro n
    rw [stopSearch_succ]
    by_cases h : S.stopAtP psi0 n
    · rw [if_pos h]
      omega
    · rw [if_neg h]
      have := ih (n + 1)
      omega

theorem le_stopSearch {d : ℕ} (S : DirichletSystem d) (psi0 : GridField d) :
    ∀ r n, n ≤ S.stopSearch psi0 n r := by
  intro r
  induction r with
  | zero => intro n; simp [DirichletSystem.stopSearch]
  | succ r ih =>
    intro n
    rw [stopSearch_succ]
    by_cases h : S.stopAtP psi0 n
    · rw [if_pos h]
      omega
    · rw [if_neg h]
      have := ih (n + 1)
      omega

theorem stopSearch_no_early {d : ℕ} (S : DirichletSystem d) (psi0 : GridField d) :
    ∀ r n k, n ≤ k → k + 1 < S.stopSearch psi0 n r → ¬ S.stopAtP psi0 k := by
  intro r
  induction r with
  | zero =>
    intro n k hnk hk
    simp [DirichletSystem.stopSearch] at hk
    omega
  | succ r ih =>
    intro n k hnk hk
    rw [stopSearch_succ] at hk
    by_cases h : S.stopAtP psi0 n
    · rw [if_pos h] at hk
      omega
    · rw [if_neg h] at hk
      rcases Nat.eq_or_lt_of_le hnk with heq | hlt
    
      · rw [← heq]
        exact h
      · exact ih (n + 1) k hlt hk

theorem stopSearch_early_stop {d : ℕ} (S : DirichletSystem d) (psi0 : GridField d) :
    ∀ r n, S.stopSearch psi0 n r < n + r →
      n + 1 ≤ S.stopSearch psi0 n r ∧ S.stopAtP psi0 (S.stopSearch psi0 n r - 1) := by
  intro r
  induction r with
  | zero =>
    intro n hn
    simp [DirichletSystem.stopSearch] at hn
  | succ r ih =>
    intro n hn
    rw [stopSearch_succ] at hn ⊢
    by_cases h : S.stopAtP psi0 n
    · rw [if_pos h] at hn ⊢
      simpa using h
    · rw [if_neg h] at hn ⊢
      have h2 := ih (n + 1) (by omega)
      exact ⟨by omega, h2.2⟩

theorem stopSearch_of_none {d : ℕ} (S : DirichletSystem d) (psi0 : GridField d)
    (h : S.stop_tol = none) : ∀ r n, S.stopSearch psi0 n r = n + r := by
  intro r
  induction r with
  | zero => intro n; simp [DirichletSystem.stopSearch]
  | succ r ih =>
    intro n
    rw [stopSearch_succ]
    have hne : ¬ S.stopAtP psi0 n := by
      rintro ⟨-, tol, htol, -⟩
      rw [h] at htol
      exact Option.noConfusion htol
    rw [if_neg hne, ih (n + 1)]
    omega

theorem filter_range_length (t T : ℕ) :
    (((List.range t).filter fun k => k + 1 < T)).length = min t (T - 1) := by
  induction t with
  | zero => simp
  | succ t ih =>
    rw [List.range_succ, List.filter_append, List.length_append, ih]
    by_cases h : t + 1 < T
    · simp only [List.filter, h]
      simp [h]
      omega
    · simp only [List.filter, h]
      simp [h]
      omega

theorem logsSpec_length {d : ℕ} (S : DirichletSystem d) (psi0 : GridField d) (n : ℕ) :
    (S.logsSpec psi0 n).length = min n (S.time_len - 1) := by
  unfold DirichletSystem.logsSpec
  rw [List.length_map, filter_range_length]

/-! ### Algebra of the deflation and renormalisation steps -/

theorem gridSum_sub {d : ℕ} (sh : Fin d → ℕ) (f g : GridField d) :
    gridSum sh (fun j => f j - g j) = gridSum sh f - gridSum sh g := by
  unfold gridSum
  exact Finset.sum_sub_distrib

theorem gridSum_const_mul {d : ℕ} (sh : Fin d → ℕ) (c : ℝ) (f : GridField d) :
    gridSum sh (fun j => c * f j) = c * gridSum sh f := by
  unfold gridSum
  exact (Finset.mul_sum _ _ _).symm

theorem gridSum_mul_const {d : ℕ} (sh : Fin d → ℕ) (c : ℝ) (f : GridField d) :
    gridSum sh (fun j => f j * c) = gridSum sh f * c := by
  unfold gridSum
  exact (Finset.sum_mul _ _ _).symm

theorem gridSum_congr {d : ℕ} (sh : Fin d → ℕ) (f g : GridField d)
    (h : ∀ j, f j = g j) : gridSum sh f = gridSum sh g := by
  unfold gridSum
  exact Finset.sum_congr rfl fun j _ => h j

theorem self_inner_normalize {d : ℕ} (S : DirichletSystem d) (v : GridField d) :
    gridSum S.sh (fun j => v j * S.normalize v j * S.vol)
      = Real.sqrt (gridSum S.sh fun j => v j * v j) * S.vol := by
  have h1 : ∀ j, v j * S.normalize v j * S.vol
      = (v j * v j) * ((1 / Real.sqrt (gridSum S.sh fun j2 => v j2 * v j2)) * S.vol) := by
    intro j
    unfold DirichletSystem.normalize
    ring
  rw [gridSum_congr _ _ _ h1, gridSum_mul_const]
  have h2 : (gridSum S.sh fun j => v j * v j)
        * (1 / Real.sqrt (gridSum S.sh fun j => v j * v j))
      = Real.sqrt (gridSum S.sh fun j => v j * v j) := by
    rw [mul_one_div]
    exact Real.div_sqrt
  rw [← mul_assoc, h2]

theorem prepareStep_inner {d : ℕ} (S : DirichletSystem d) (sol v : GridField d) :
    gridSum S.sh (fun j => S.prepareStep sol v j * S.normalize v j * S.vol)
      = (1 - S.vol * Real.sqrt (gridSum S.sh fun j => v j * v j))
        * gridSum S.sh (fun j => sol j * S.normalize v j * S.vol) := by
  have h1 : ∀ j, S.prepareStep sol v j * S.normalize v j * S.vol
      = sol j * S.normalize v j * S.vol
        - (gridSum S.sh fun j2 => sol j2 * S.normalize v j2 * S.vol)
          * (v j * S.normalize v j * S.vol) := by
    intro j
    unfold DirichletSystem.prepareStep
    ring
  rw [gridSum_congr _ _ _ h1, gridSum_sub, gridSum_const_mul, self_inner_normalize]
  ring

theorem normalize_sq_of_pos {d : ℕ} (S : DirichletSystem d) (psi : GridField d)
    (h : 0 < gridSum S.sh fun j => psi j * psi j) :
    gridSum S.sh (fun j => S.normalize psi j * S.normalize psi j) = 1 := by
  have h1 : ∀ j, S.normalize psi j * S.normalize psi j
      = (psi j * psi j)
        * ((1 / Real.sqrt (gridSum S.sh fun j2 => psi j2 * psi j2))
          * (1 / Real.sqrt (gridSum S.sh fun j2 => psi j2 * psi j2))) := by
    intro j
    unfold DirichletSystem.normalize
    ring
  rw [gridSum_congr _ _ _ h1, gridSum_mul_const]
  have hs : Real.sqrt (gridSum S.sh fun j => psi j * psi j)
      * Real.sqrt (gridSum S.sh fun j => psi j * psi j)
      = gridSum S.sh fun j => psi j * psi j :=
    Real.mul_self_sqrt (le_of_lt h)
  have hne : Real.sqrt (gridSum S.sh fun j => psi j * psi j) ≠ 0 := by
    have := Real.sqrt_pos.mpr h
    exact ne_of_gt this
  field_simp

/-! ### Preservation of the zero boundary (Dirichlet, priors vanishing there) -/

theorem apply_boundary_at_boundary {d : ℕ} (S : DirichletSystem d)
    (hbd : S.bd_cond = none) (sol : GridField d) (idx : Fin d → ℕ)
    (hb : isBoundaryIdx S.sh idx) : S.apply_boundary sol idx = 0 := by
  unfold DirichletSystem.apply_boundary
  rw [if_pos hbd, if_pos hb]

theorem prepareStep_at_boundary {d : ℕ} (S : DirichletSystem d)
    (sol v : GridField d) (idx : Fin d → ℕ)
    (hsol : sol idx = 0) (hvb : v idx = 0) : S.prepareStep sol v idx = 0 := by
  unfold DirichletSystem.prepareStep
  rw [hsol, hvb]
  ring

theorem foldl_prepareStep_boundary {d : ℕ} (S : DirichletSystem d) :
    ∀ (l : List (GridField d)) (sol : GridField d),
      (∀ v ∈ l, ∀ idx, validIdx S.sh idx → isBoundaryIdx S.sh idx → v idx = 0) →
      (∀ idx, validIdx S.sh idx → isBoundaryIdx S.sh idx → sol idx = 0) →
      ∀ idx, validIdx S.sh idx → isBoundaryIdx S.sh idx →
        l.foldl (fun s vec => S.prepareStep s vec) sol idx = 0 := by
  intro l
  induction l with
  | nil => intro sol _ hsol; exact hsol
  | cons v l ih =>
    intro sol hpr hsol
    have hv : ∀ idx, validIdx S.sh idx → isBoundaryIdx S.sh idx → v idx = 0 :=
      hpr v (List.mem_cons_self v l)
    have hl : ∀ w ∈ l, ∀ idx, validIdx S.sh idx → isBoundaryIdx S.sh idx → w idx = 0 :=
      fun w hw => hpr w (List.mem_cons_of_mem v hw)
    exact ih (S.prepareStep sol v) hl
      (fun idx hvx hbx => prepareStep_at_boundary S sol v idx (hsol idx hvx hbx) (hv idx hvx hbx))

theorem prepare_at_boundary {d : ℕ} (S : DirichletSystem d)
    (hpr : ∀ v ∈ S.priors, ∀ idx, validIdx S.sh idx → isBoundaryIdx S.sh idx → v idx = 0)
    (sol : GridField d)
    (hsol : ∀ idx, validIdx S.sh idx → isBoundaryIdx S.sh idx → sol idx = 0) :
    ∀ idx, validIdx S.sh idx → isBoundaryIdx S.sh idx → S.prepare sol idx = 0 := by
  unfold DirichletSystem.prepare
  exact foldl_prepareStep_boundary S S.priors sol hpr hsol

theorem kineD_at_boundary {d : ℕ} (S : DirichletSystem d) (px : GridField d)
    (hpx : ∀ idx, validIdx S.sh idx → isBoundaryIdx S.sh idx → px idx = 0) :
    ∀ idx, validIdx S.sh idx → isBoundaryIdx S.sh idx → S.kineD px idx = 0 := by
  intro idx hv hb
  unfold DirichletSystem.kineD
  refine Finset.sum_eq_zero fun i _ => ?_
  by_cases hc : 1 ≤ idx i ∧ idx i + 1 < S.sh i
  · rw [if_pos hc]
    obtain ⟨hc1, hc2⟩ := hc
    obtain ⟨i0, hi0⟩ := hb
    have hne : i0 ≠ i := by
      rintro rfl
      rcases hi0 with h0 | h1
      · omega
      · omega
    have hvm : validIdx S.sh (Function.update idx i (idx i - 1)) := by
      intro k
      by_cases hk : k = i
      · subst hk
        rw [Function.update_same]
        omega
      · rw [Function.update_noteq hk]
        exact hv k
    have hvp : validIdx S.sh (Function.update idx i (idx i + 1)) := by
      intro k
      by_cases hk : k = i
      · subst hk
        rw [Function.update_same]
        omega
      · rw [Function.update_noteq hk]
        exact hv k
    have hbm : isBoundaryIdx S.sh (Function.update idx i (idx i - 1)) :=
      ⟨i0, by rw [Function.update_noteq hne]; exact hi0⟩
    have hbp : isBoundaryIdx S.sh (Function.update idx i (idx i + 1)) :=
      ⟨i0, by rw [Function.update_noteq hne]; exact hi0⟩
    rw [hpx _ hvm hbm, hpx _ hvp hbp, hpx idx hv ⟨i0, hi0⟩]
    ring
  · rw [if_neg hc]

theorem stepSol_at_boundary {d : ℕ} (S : DirichletSystem d)
    (hpr : ∀ v ∈ S.priors, ∀ idx, validIdx S.sh idx → isBoundaryIdx S.sh idx → v idx = 0)
    (n : ℕ) (sol : GridField d)
    (hsol : ∀ idx, validIdx S.sh idx → isBoundaryIdx S.sh idx → sol idx = 0) :
    ∀ idx, validIdx S.sh idx → isBoundaryIdx S.sh idx → S.stepSol n sol idx = 0 := by
  intro idx hv hb
  have hpxv : ∀ idx, validIdx S.sh idx → isBoundaryIdx S.sh idx → S.prepare sol idx = 0 :=
    prepare_at_boundary S hpr sol hsol
  unfold DirichletSystem.stepSol
  by_cases h : n + 1 < S.time_len
  · rw [if_pos h]
    unfold DirichletSystem.normalize DirichletSystem.updateF
    rw [hpxv idx hv hb, kineD_at_boundary S (S.prepare sol) hpxv idx hv hb]
    ring
  · rw [if_neg h]
    exact hpxv idx hv hb

theorem solAt_at_boundary {d : ℕ} (S : DirichletSystem d) (psi0 : GridField d)
    (hbd : S.bd_cond = none)
    (hpr : ∀ v ∈ S.priors, ∀ idx, validIdx S.sh idx → isBoundaryIdx S.sh idx → v idx = 0) :
    ∀ n idx, validIdx S.sh idx → isBoundaryIdx S.sh idx → S.solAt psi0 n idx = 0 := by
  intro n
  induction n with
  | zero =>
    intro idx hv hb
    show S.solveStart psi0 idx = 0
    unfold DirichletSystem.solveStart
    refine prepare_at_boundary S hpr (S.apply_boundary psi0) ?_ idx hv hb
    intro idx2 _ hb2
    exact apply_boundary_at_boundary S hbd psi0 idx2 hb2
  | succ n ih =>
    intro idx hv hb
    show S.stepSol n (S.solAt psi0 n) idx = 0
    exact stepSol_at_boundary S hpr n (S.solAt psi0 n) ih idx hv hb

/-! ### More evaluation helpers -/

theorem stopAtP_of_none {d : ℕ} (S : DirichletSystem d) (psi0 : GridField d)
    (h : S.stop_tol = none) (n : ℕ) : ¬ S.stopAtP psi0 n := by
  rintro ⟨-, tol, htol, -⟩
  rw [h] at htol
  exact Option.noConfusion htol

theorem solveIters_of_none {d : ℕ} (S : DirichletSystem d) (psi0 : GridField d)
    (h : S.stop_tol = none) : S.solveIters psi0 = S.tLen := by
  unfold DirichletSystem.solveIters
  rw [stopSearch_of_none S psi0 h]
  omega

theorem es_length {d : ℕ} (S : DirichletSystem d) (psi0 : GridField d) :
    (S.solve psi0).es.length = S.solveIters psi0 := by
  rw [solve_eq]
  simp

theorem logs_eq {d : ℕ} (S : DirichletSystem d) (psi0 : GridField d) :
    (S.solve psi0).logs = S.logsSpec psi0 (S.solveIters psi0) := by
  rw [solve_eq]

theorem es_getD {d : ℕ} (S : DirichletSystem d) (psi0 : GridField d) (n : ℕ)
    (h : n < S.solveIters psi0) : (S.solve psi0).es.getD n 0 = S.energyAt psi0 n := by
  rw [solve_eq]
  exact getD_map_range _ _ _ h

theorem pointCount_floor (dom : Boundary) (h1 : 0 < dom.step)
    (h2 : dom.step ≤ dom.end_ - dom.start) :
    (pointCount dom : ℤ) = ⌊(dom.end_ - dom.start) / dom.step⌋ + 1 := by
  have hq : (1 : ℝ) ≤ (dom.end_ - dom.start) / dom.step :=
    (one_le_div h1).mpr h2
  have hq0 : (0 : ℝ) ≤ (dom.end_ - dom.start) / dom.step := by linarith
  have hfl : (1 : ℤ) ≤ ⌊(dom.end_ - dom.start) / dom.step⌋ := by
    rw [Int.le_floor]
    exact_mod_cast hq
  unfold pointCount pyInt
  rw [if_pos hq0]
  push_cast [Int.toNat_of_nonneg (by omega : (0:ℤ) ≤ ⌊(dom.end_ - dom.start) / dom.step⌋)]
  ring

theorem pointCount_ge_two (dom : Boundary) (h1 : 0 < dom.step)
    (h2 : dom.step ≤ dom.end_ - dom.start) : 2 ≤ pointCount dom := by
  have h := pointCount_floor dom h1 h2
  have hq : (1 : ℝ) ≤ (dom.end_ - dom.start) / dom.step :=
    (one_le_div h1).mpr h2
  have hfl : (1 : ℤ) ≤ ⌊(dom.end_ - dom.start) / dom.step⌋ := by
    rw [Int.le_floor]
    exact_mod_cast hq
  omega

/-! ### Concrete periodic-mode run (four points, unit step, free particle) -/

theorem pbc_pxP_0 : pbc_extrap 4 psiP 0 = 0 := by
  norm_num [pbc_extrap, psiP]

theorem pbc_pxP_1 : pbc_extrap 4 psiP 1 = 3 := by
  norm_num [pbc_extrap, psiP]

theorem pbc_pxP_2 : pbc_extrap 4 psiP 2 = 6 := by
  norm_num [pbc_extrap, psiP]

theorem pbc_pxP_3 : pbc_extrap 4 psiP 3 = 1 := by
  norm_num [pbc_extrap, psiP]

theorem kineP_0 : kine_pbc 4 1 (pbc_extrap 4 psiP) 0 = 0 := by
  norm_num [kine_pbc]

theorem kineP_1 : kine_pbc 4 1 (pbc_extrap 4 psiP) 1 = 4 := by
  unfold kine_pbc
  rw [if_pos (by norm_num)]
  norm_num [pbc_pxP_0, pbc_pxP_1, pbc_pxP_2, pbc_pxP_3]

theorem kineP_2 : kine_pbc 4 1 (pbc_extrap 4 psiP) 2 = 0 := by
  unfold kine_pbc
  rw [if_pos (by norm_num)]
  norm_num [pbc_pxP_0, pbc_pxP_1, pbc_pxP_2, pbc_pxP_3]

theorem kineP_3 : kine_pbc 4 1 (pbc_extrap 4 psiP) 3 = 0 := by
  norm_num [kine_pbc]

theorem solP_1 : solPBCAt 4 1 1 1 (fun _ => 0) 3 [] psiP 1
    = normalize1 4 (fun k =>
        (1 - 0.5 * 1 * 0) * (1 / (1 + 0.5 * 1 * 0)) * pbc_extrap 4 psiP k
          + 1 * (1 / (1 + 0.5 * 1 * 0)) * kine_pbc 4 1 (pbc_extrap 4 psiP) k) := by
  show step_pbc 4 1 1 1 (fun _ => 0) 3 [] 0 (solPBCAt 4 1 1 1 (fun _ => 0) 3 [] psiP 0) = _
  simp only [step_pbc, solPBCAt]
  rw [if_pos (by norm_num)]
  rfl

theorem uP_0 : (1 - 0.5 * 1 * 0) * (1 / (1 + 0.5 * 1 * 0)) * pbc_extrap 4 psiP 0
    + 1 * (1 / (1 + 0.5 * 1 * 0)) * kine_pbc 4 1 (pbc_extrap 4 psiP) 0 = 0 := by
  rw [pbc_pxP_0, kineP_0]
  norm_num

theorem uP_1 : (1 - 0.5 * 1 * 0) * (1 / (1 + 0.5 * 1 * 0)) * pbc_extrap 4 psiP 1
    + 1 * (1 / (1 + 0.5 * 1 * 0)) * kine_pbc 4 1 (pbc_extrap 4 psiP) 1 = 7 := by
  rw [pbc_pxP_1, kineP_1]
  norm_num

theorem uP_2 : (1 - 0.5 * 1 * 0) * (1 / (1 + 0.5 * 1 * 0)) * pbc_extrap 4 psiP 2
    + 1 * (1 / (1 + 0.5 * 1 * 0)) * kine_pbc 4 1 (pbc_extrap 4 psiP) 2 = 6 := by
  rw [pbc_pxP_2, kineP_2]
  norm_num

theorem uP_3 : (1 - 0.5 * 1 * 0) * (1 / (1 + 0.5 * 1 * 0)) * pbc_extrap 4 psiP 3
    + 1 * (1 / (1 + 0.5 * 1 * 0)) * kine_pbc 4 1 (pbc_extrap 4 psiP) 3 = 1 := by
  rw [pbc_pxP_3, kineP_3]
  norm_num

theorem uP_sq : gridSum1 4 (fun j =>
    ((1 - 0.5 * 1 * 0) * (1 / (1 + 0.5 * 1 * 0)) * pbc_extrap 4 psiP j
      + 1 * (1 / (1 + 0.5 * 1 * 0)) * kine_pbc 4 1 (pbc_extrap 4 psiP) j)
    * ((1 - 0.5 * 1 * 0) * (1 / (1 + 0.5 * 1 * 0)) * pbc_extrap 4 psiP j
      + 1 * (1 / (1 + 0.5 * 1 * 0)) * kine_pbc 4 1 (pbc_extrap 4 psiP) j)) = 86 := by
  unfold gridSum1
  rw [Finset.sum_range_succ, Finset.sum_range_succ, Finset.sum_range_succ,
    Finset.sum_range_succ, Finset.sum_range_zero]
  rw [uP_0, uP_1, uP_2, uP_3]
  norm_num

/-! ### Claim theorems -/

/-- C1 (counterexample).  The claim says that after the renormalisation step
of every completed non-final iteration the volume-weighted L2 norm
`sqrt(sum(solution^2) * vol)` equals `1`.  On `S1` (three points, step `1/2`,
so `vol = 1/2`, `time_len = 3`) iteration `0` is completed and non-final, and
after its renormalisation the volume-weighted norm is `sqrt(1/2) ≠ 1`:
`normalize` divides by `sqrt(sum(psi^2))` without the volume factor. -/
theorem c1_weighted_norm_cex :
    Real.sqrt ((gridSum S1.sh fun j => S1.solAt psi01 1 j * S1.solAt psi01 1 j) * S1.vol)
      ≠ 1 := by
  intro h
  rw [solAt_S1_1_sq, vol_S1, one_mul] at h
  have h2 := Real.sqrt_eq_one.mp h
  norm_num at h2

/-- C1 (amended).  After the renormalisation of a completed non-final
iteration (performed whenever `n + 1 < time_len`, and meaningful whenever the
pre-normalisation field has nonzero norm), the UNweighted L2 norm
`sqrt(sum(solution^2))` equals `1` exactly, and the volume-weighted norm of
the claim equals `sqrt(vol)` — not `1` — because `normalize` of this notebook
omits the volume factor. -/
theorem c1_renormalized_norm {d : ℕ} (S : DirichletSystem d) (psi0 : GridField d)
    (n : ℕ) (hn : n + 1 < S.time_len)
    (hpos : 0 < gridSum S.sh fun j => S.updatedAt psi0 n j * S.updatedAt psi0 n j) :
    Real.sqrt (gridSum S.sh fun j => S.solAt psi0 (n + 1) j * S.solAt psi0 (n + 1) j) = 1
    ∧ Real.sqrt ((gridSum S.sh fun j => S.solAt psi0 (n + 1) j * S.solAt psi0 (n + 1) j)
        * S.vol) = Real.sqrt S.vol := by
  have hstep : S.solAt psi0 (n + 1) = S.normalize (S.updatedAt psi0 n) := by
    show S.stepSol n (S.solAt psi0 n) = _
    simp only [DirichletSystem.stepSol]
    rw [if_pos hn]
    rfl
  have hsq : (gridSum S.sh fun j => S.solAt psi0 (n + 1) j * S.solAt psi0 (n + 1) j) = 1 := by
    rw [hstep]
    exact normalize_sq_of_pos S _ hpos
  rw [hsq, one_mul]
  exact ⟨Real.sqrt_one, rfl⟩

/-- C1 (witness): the amended statement instantiated on the concrete run
`S1`, iteration `0` (non-final since `time_len = 3`; the pre-normalisation
field has squared sum `9 > 0`). -/
theorem c1_renormalized_norm_witness :
    0 + 1 < S1.time_len
    ∧ Real.sqrt (gridSum S1.sh fun j => S1.solAt psi01 (0 + 1) j * S1.solAt psi01 (0 + 1) j)
      = 1 := by
  have h1 : 0 + 1 < S1.time_len := by
    rw [time_len_S1]
    norm_num
  have h2 : 0 < gridSum S1.sh fun j => S1.updatedAt psi01 0 j * S1.updatedAt psi01 0 j := by
    rw [updatedAt_S1_sq]
    norm_num
  exact ⟨h1, (c1_renormalized_norm S1 psi01 0 h1 h2).1⟩

/-- C2 (counterexample).  The claim says that immediately after `_prepare`
the volume-weighted inner product of the solution with each L2-normalised
prior is zero.  On `S3` (single prior `v3` with `sum(v3^2) = 25`, `vol = 1/2`)
deflating the ingested seed `psi01` leaves inner product `-(3/5) ≠ 0`:
`_prepare` subtracts `inner * vec` with the UN-normalised `vec`, so the
post-deflation inner product is scaled by `1 - vol * sqrt(sum(v^2))`, which
is not zero here. -/
theorem c2_deflation_cex :
    gridSum S3.sh (fun j => S3.prepare psi01 j * S3.normalize v3 j * S3.vol) ≠ 0 := by
  rw [prepare_of_single S3 v3 rfl]
  have h := inner2_S3
  rw [solAt_S3_0] at h
  rw [h]
  norm_num

/-- C2 (amended).  One pass of `_prepare` subtracts
`inner * vec = (sum(sol * normalize(vec) * vol)) * vec` (the projection
coefficient along the normalised prior times the UN-normalised prior), and
consequently the volume-weighted inner product with the normalised prior
after the pass equals `(1 - vol * sqrt(sum(vec^2)))` times its value before
the pass — zero in general only when `vol * sqrt(sum(vec^2)) = 1`, not
always as the claim states. -/
theorem c2_deflation_projection {d : ℕ} (S : DirichletSystem d) (sol v : GridField d) :
    (∀ idx, S.prepareStep sol v idx
        = sol idx - (gridSum S.sh fun j => sol j * S.normalize v j * S.vol) * v idx)
    ∧ gridSum S.sh (fun j => S.prepareStep sol v j * S.normalize v j * S.vol)
      = (1 - S.vol * Real.sqrt (gridSum S.sh fun j => v j * v j))
        * gridSum S.sh (fun j => sol j * S.normalize v j * S.vol) :=
  ⟨fun _ => rfl, prepareStep_inner S sol v⟩

/-- C3 (counterexample).  The claim says Dirichlet boundary values are reset
to zero on every step, so every post-iteration solution is zero on the
boundary.  In the code the per-step `_apply_boundary` call is commented out,
and a prior that does not vanish on the boundary (here `v3`, with
`v3 = 3` at the boundary point `0`) re-introduces a nonzero boundary value
through deflation: after iteration `0` of `S3` the solution at the valid
boundary point `(0)` of the three-point grid is nonzero. -/
theorem c3_boundary_cex :
    validIdx S3.sh (oneIdx 0) ∧ isBoundaryIdx S3.sh (oneIdx 0)
    ∧ S3.solAt psi01 1 (oneIdx 0) ≠ 0 := by
  refine ⟨?_, ⟨0, Or.inl rfl⟩, ?_⟩
  · intro i
    rw [sh_S3]
    norm_num [oneIdx]
  · rw [solAt_S3_1]
    unfold DirichletSystem.normalize
    rw [updatedAt_S3_val0]
    have hs : 0 < Real.sqrt (gridSum S3.sh fun j =>
        S3.updatedAt psi01 0 j * S3.updatedAt psi01 0 j) :=
      Real.sqrt_pos.mpr updatedAt_S3_sq_pos
    have hne : (1 : ℝ) / Real.sqrt (gridSum S3.sh fun j =>
        S3.updatedAt psi01 0 j * S3.updatedAt psi01 0 j) ≠ 0 :=
      one_div_ne_zero (ne_of_gt hs)
    exact mul_ne_zero (by norm_num) hne

/-- C3 (amended).  In the default Dirichlet mode (`bd_cond is None`) the
boundary values are forced to zero when the initial condition is ingested;
`solve` performs NO explicit per-step boundary reset (the call is commented
out), but provided every prior state vanishes on the (valid) boundary — in
particular with an empty `PriorList` — the zero boundary is nevertheless
preserved: for every iteration count `n` the solution is zero at every valid
boundary point. -/
theorem c3_boundary_zero {d : ℕ} (S : DirichletSystem d) (psi0 : GridField d)
    (hbd : S.bd_cond = none)
    (hpr : ∀ v ∈ S.priors, ∀ idx, validIdx S.sh idx → isBoundaryIdx S.sh idx → v idx = 0) :
    (∀ idx, isBoundaryIdx S.sh idx → S.apply_boundary psi0 idx = 0)
    ∧ ∀ n idx, validIdx S.sh idx → isBoundaryIdx S.sh idx → S.solAt psi0 n idx = 0 :=
  ⟨fun idx hb => apply_boundary_at_boundary S hbd psi0 idx hb,
    solAt_at_boundary S psi0 hbd hpr⟩

/-- C3 (witness): the amended statement instantiated on `S1` (no priors):
after five iterations the solution is still zero at the valid boundary
point `(0)`. -/
theorem c3_boundary_zero_witness : S1.solAt psi01 5 (oneIdx 0) = 0 := by
  have hpr : ∀ v ∈ S1.priors, ∀ idx, validIdx S1.sh idx → isBoundaryIdx S1.sh idx →
      v idx = 0 := by
    intro v hv
    rw [show S1.priors = [] from rfl] at hv
    exact absurd hv (List.not_mem_nil v)
  refine (c3_boundary_zero S1 psi01 rfl hpr).2 5 (oneIdx 0) ?_ ⟨0, Or.inl rfl⟩
  intro i
  rw [sh_S1]
  norm_num [oneIdx]

/-- C4.  The stopping behaviour of `solve`: `t_len` is the minimum of the
`max_iter` override and `time_len` (or `time_len` alone when no override is
given); one energy is recorded per completed iteration; the loop never runs
past `t_len`; it never continues past an iteration `n > 0` at which the
configured tolerance test `|1 - E[n-1]/E[n]| < tol` held; when it leaves
before `t_len` the test did hold at the last completed iteration; and with
no tolerance configured it runs exactly `t_len` iterations. -/
theorem c4_convergence_monitor {d : ℕ} (S : DirichletSystem d) (psi0 : GridField d) :
    (S.tLen = match S.max_iter with
      | some m => min m S.time_len
      | none => S.time_len)
    ∧ (S.solve psi0).es.length = S.solveIters psi0
    ∧ S.solveIters psi0 ≤ S.tLen
    ∧ (∀ n, n + 1 < S.solveIters psi0 → ¬ S.stopAtP psi0 n)
    ∧ (S.solveIters psi0 < S.tLen →
        0 < S.solveIters psi0 ∧ S.stopAtP psi0 (S.solveIters psi0 - 1))
    ∧ (S.stop_tol = none → S.solveIters psi0 = S.tLen) := by
  refine ⟨?_, es_length S psi0, ?_, ?_, ?_, solveIters_of_none S psi0⟩
  · unfold DirichletSystem.tLen
    cases S.max_iter with
    | none => rfl
    | some m =>
      show (if m < S.time_len then m else S.time_len) = min m S.time_len
      by_cases h : m < S.time_len
      · rw [if_pos h]
        omega
      · rw [if_neg h]
        omega
  · have := stopSearch_le S psi0 S.tLen 0
    unfold DirichletSystem.solveIters
    omega
  · intro n hn
    exact stopSearch_no_early S psi0 S.tLen 0 n (Nat.zero_le n) hn
  · intro hlt
    unfold DirichletSystem.solveIters at hlt ⊢
    have h := stopSearch_early_stop S psi0 S.tLen 0 (by omega)
    exact ⟨by omega, h.2⟩

/-- C4 (witness): on `S4` (`time_len = 2`, no tolerance, no override) the
theorem yields a full-length run of two iterations, with the no-early-stop
part instantiated at iteration `0`. -/
theorem c4_convergence_monitor_witness :
    S4.solveIters psi01 = S4.tLen ∧ ¬ S4.stopAtP psi01 0
    ∧ (S4.solve psi01).es.length = 2 := by
  obtain ⟨h1, h2, h3, h4, h5, h6⟩ := c4_convergence_monitor S4 psi01
  have ha : S4.solveIters psi01 = S4.tLen := h6 rfl
  have hb : ¬ S4.stopAtP psi01 0 := h4 0 (by rw [ha, tLen_S4]; norm_num)
  refine ⟨ha, hb, ?_⟩
  rw [h2, ha, tLen_S4]

/-- C5 (counterexample).  The claim says the update and renormalisation are
skipped on the final scheduled iteration for EVERY configuration, including
`max_iter < time_len`.  On `S5` (`time_len = 3`, `max_iter = 1`) the single
scheduled iteration `0` is final, yet the update/renormalisation block runs —
the code only tests `n + 1 < time_len`, not the truncated schedule — as
witnessed by the norm log it appends: `logs` has one entry, not zero. -/
theorem c5_final_skip_cex :
    S5.tLen = 1 ∧ (S5.solve psi01).logs.length = 1 := by
  refine ⟨tLen_S5, ?_⟩
  rw [logs_eq, solveIters_of_none S5 psi01 rfl, tLen_S5, logsSpec_length, time_len_S5]
  norm_num

/-- C5 (amended).  The update and renormalisation of an iteration `n` are
performed exactly when `n + 1 < time_len`, independently of the `max_iter`
override: with no stop tolerance, the run records one energy per scheduled
iteration (`t_len` of them, each from the pre-update solution), while the
norm log — one entry per performed update — has `min t_len (time_len - 1)`
entries.  In particular when `max_iter < time_len` the final scheduled
iteration still updates and renormalises; the update is skipped only on the
last iteration of the full time domain. -/
theorem c5_final_iteration {d : ℕ} (S : DirichletSystem d) (psi0 : GridField d)
    (h : S.stop_tol = none) :
    (S.solve psi0).es.length = S.tLen
    ∧ (S.solve psi0).logs.length = min S.tLen (S.time_len - 1) := by
  constructor
  · rw [es_length, solveIters_of_none S psi0 h]
  · rw [logs_eq, solveIters_of_none S psi0 h, logsSpec_length]

/-- C5 (witness): the amended statement instantiated on `S5`
(`t_len = 1 < time_len = 3`: one energy recorded, one update logged). -/
theorem c5_final_iteration_witness :
    (S5.solve psi01).es.length = S5.tLen
    ∧ (S5.solve psi01).logs.length = min S5.tLen (S5.time_len - 1) :=
  c5_final_iteration S5 psi01 rfl

/-- C6.  Every recorded energy is the Rayleigh quotient of the claim: for
`n` below the number of completed iterations, `energy_series[n]` equals
`(sum(pot_grid * px^2) - sum(kine * px)) / sum(px^2)` evaluated on the
deflated pre-update solution `px` of iteration `n` and its kinetic term. -/
theorem c6_energy_series {d : ℕ} (S : DirichletSystem d) (psi0 : GridField d)
    (n : ℕ) (h : n < (S.solve psi0).es.length) :
    (S.solve psi0).es.getD n 0
      = (gridSum S.sh (fun j => S.pot_grid j * S.pxAt psi0 n j * S.pxAt psi0 n j)
          - gridSum S.sh fun j => S.kineAt psi0 n j * S.pxAt psi0 n j)
        / gridSum S.sh fun j => S.pxAt psi0 n j * S.pxAt psi0 n j := by
  rw [es_length] at h
  rw [es_getD S psi0 n h]
  rfl

/-- C6 (witness): instantiated at iteration `0` of the one-iteration run
`S0` (its `time_len` is `1`, so exactly one energy is recorded). -/
theorem c6_energy_series_witness :
    0 < (S0.solve psi01).es.length
    ∧ (S0.solve psi01).es.getD 0 0
      = (gridSum S0.sh (fun j => S0.pot_grid j * S0.pxAt psi01 0 j * S0.pxAt psi01 0 j)
          - gridSum S0.sh fun j => S0.kineAt psi01 0 j * S0.pxAt psi01 0 j)
        / gridSum S0.sh fun j => S0.pxAt psi01 0 j * S0.pxAt psi01 0 j := by
  have hlen : (S0.solve psi01).es.length = 1 := by
    rw [es_length, solveIters_of_none S0 psi01 rfl, tLen_S0]
  have h0 : 0 < (S0.solve psi01).es.length := by omega
  exact ⟨h0, c6_energy_series S0 psi01 0 h0⟩

/-- C7.  The semi-implicit update: the pre-normalisation updated field of
every iteration equals, pointwise, `alpha * px + dt * beta * kine` with
`beta = 1/(1 + dt/2 * pot)` and `alpha = (1 - dt/2 * pot) * beta` computed
from the cached potential field; on every non-final iteration
(`n + 1 < time_len`) the next solution state is that updated field,
renormalised. -/
theorem c7_semi_implicit_update {d : ℕ} (S : DirichletSystem d) (psi0 : GridField d)
    (n : ℕ) :
    (∀ idx, S.updatedAt psi0 n idx
        = (1 - 0.5 * S.dt * S.pot_grid idx) * (1 / (1 + 0.5 * S.dt * S.pot_grid idx))
            * S.pxAt psi0 n idx
          + S.dt * (1 / (1 + 0.5 * S.dt * S.pot_grid idx)) * S.kineAt psi0 n idx)
    ∧ (n + 1 < S.time_len → S.solAt psi0 (n + 1) = S.normalize (S.updatedAt psi0 n)) := by
  constructor
  · intro idx
    rfl
  · intro hn
    show S.stepSol n (S.solAt psi0 n) = _
    simp only [DirichletSystem.stepSol]
    rw [if_pos hn]
    rfl

/-- C7 (witness): instantiated on `S1` at iteration `0`
(non-final, `time_len = 3`). -/
theorem c7_semi_implicit_update_witness :
    S1.solAt psi01 (0 + 1) = S1.normalize (S1.updatedAt psi01 0) :=
  (c7_semi_implicit_update S1 psi01 0).2 (by rw [time_len_S1]; norm_num)

/-- C8 (counterexample).  The claim says a shape mismatch of the initial
condition is detected at initialisation and reported.  Ingesting a
five-element field into a three-point grid succeeds silently (`isSome`),
keeping the mismatched length: `_initialize` performs no shape check, and
the boundary writes of `_apply_boundary` (indices `0` and `2`) happen to be
in range of the longer array. -/
theorem c8_shape_mismatch_cex :
    (set_psi0_1d 3 [1, 2, 3, 4, 5]).isSome = true
    ∧ [(1 : ℝ), 2, 3, 4, 5].length ≠ 3 := by
  constructor
  · norm_num [set_psi0_1d, apply_boundary_1d, np_set]
  · norm_num

/-- C8 (amended).  No shape check is performed at ingestion: on a grid of
extent `l ≥ 1`, `set_psi0_by_grid` succeeds exactly when the supplied array
is long enough for the boundary writes (`l ≤ length`) — a too-short array
fails only incidentally, with an out-of-range index error inside
`_apply_boundary`, while a too-long array is accepted silently — and on
success the stored field keeps the caller's length unchanged (no truncation
or broadcast), mismatched or not. -/
theorem c8_shape_mismatch (l : ℕ) (psi0 : List ℝ) (hl : 1 ≤ l) :
    ((set_psi0_1d l psi0).isSome ↔ l ≤ psi0.length)
    ∧ ∀ ys, set_psi0_1d l psi0 = some ys → ys.length = psi0.length := by
  unfold set_psi0_1d apply_boundary_1d np_set
  by_cases h0 : 0 < psi0.length
  · rw [if_pos h0]
    simp only [Option.some_bind]
    rw [List.length_set]
    by_cases h1 : l - 1 < psi0.length
    · rw [if_pos h1]
      constructor
      · constructor
        · intro _
          omega
        · intro _
          simp
      · intro ys hys
        have hys2 : ys = (psi0.set 0 0).set (l - 1) 0 := (Option.some_inj.mp hys).symm
        rw [hys2, List.length_set, List.length_set]
    · rw [if_neg h1]
      constructor
      · constructor
        · intro hs
          simp at hs
        · intro hle
          exfalso
          apply h1
          omega
      · intro ys hys
        exact Option.noConfusion hys
  · rw [if_neg h0]
    constructor
    · constructor
      · intro hs
        simp at hs
      · intro hle
        omega
    · intro ys hys
      exact Option.noConfusion hys

/-- C8 (witness): the amended statement instantiated on the three-point
grid with the five-element field of the counterexample. -/
theorem c8_shape_mismatch_witness :
    (1 : ℕ) ≤ 3
    ∧ ((set_psi0_1d 3 [1, 2, 3, 4, 5]).isSome ↔ 3 ≤ [(1 : ℝ), 2, 3, 4, 5].length) :=
  ⟨by norm_num, (c8_shape_mismatch 3 [1, 2, 3, 4, 5] (by norm_num)).1⟩

/-- C9.  The grid builder: for a valid axis (`0 < step ≤ end - start`) the
point count is `floor((end - start)/step) + 1`; the `linspace` coordinates
start exactly at `start`, end exactly at `end`, and are uniformly spaced
with spacing `(end - start)/(count - 1)`; and `_init_mesh` allocates the
zero solution field whose shape is the tuple of per-axis point counts. -/
theorem c9_grid_builder (dom : Boundary) (h1 : 0 < dom.step)
    (h2 : dom.step ≤ dom.end_ - dom.start) :
    ((pointCount dom : ℤ) = ⌊(dom.end_ - dom.start) / dom.step⌋ + 1)
    ∧ linspace dom (pointCount dom) 0 = dom.start
    ∧ linspace dom (pointCount dom) (pointCount dom - 1) = dom.end_
    ∧ (∀ k, linspace dom (pointCount dom) (k + 1) - linspace dom (pointCount dom) k
        = (dom.end_ - dom.start) / ((pointCount dom : ℝ) - 1))
    ∧ (∀ (d : ℕ) (S : DirichletSystem d) (idx : Fin d → ℕ) (i : Fin d),
        S.sol_mesh_init idx = 0 ∧ S.sh i = pointCount (S.spat_dom i)) := by
  have hge := pointCount_ge_two dom h1 h2
  have hx : ((pointCount dom : ℝ) - 1) ≠ 0 := by
    have h2r : (2 : ℝ) ≤ (pointCount dom : ℝ) := by exact_mod_cast hge
    linarith
  refine ⟨pointCount_floor dom h1 h2, ?_, ?_, ?_, fun d S idx i => ⟨rfl, rfl⟩⟩
  · unfold linspace
    norm_num
  · unfold linspace
    have hcast : ((pointCount dom - 1 : ℕ) : ℝ) = (pointCount dom : ℝ) - 1 := by
      have : 1 ≤ pointCount dom := by omega
      push_cast [this]
      ring
    rw [hcast]
    field_simp
  · intro k
    unfold linspace
    push_cast
    field_simp
    ring

/-- C9 (witness): the axis `(0, 1, 1/4)` (five points, both endpoints hit). -/
theorem c9_grid_builder_witness :
    0 < (Boundary.mk 0 1 (1/4)).step
    ∧ linspace (Boundary.mk 0 1 (1/4)) (pointCount (Boundary.mk 0 1 (1/4))) 0
      = (Boundary.mk 0 1 (1/4)).start :=
  ⟨by norm_num, (c9_grid_builder (Boundary.mk 0 1 (1/4)) (by norm_num)
    (by norm_num)).2.1⟩

/-- C10 (counterexample).  The claim says that in periodic mode, at every
step of `solve`, the value at the last grid point equals
`value[0] + (1/3) value[-2] - (1/3) value[1]`.  On the concrete four-point
periodic run (unit step, `dt = 1`, zero potential, seed `psiP`), the
relation is established in place at the START of the iteration, but the
semi-implicit update then adds `dt * kine` — which differs between the
stencil points — and the renormalised solution AFTER iteration `0` violates
the relation: the defect is `(4/3) / sqrt(86) ≠ 0`. -/
theorem c10_pbc_extrapolation_cex :
    solPBCAt 4 1 1 1 (fun _ => 0) 3 [] psiP 1 3
      ≠ solPBCAt 4 1 1 1 (fun _ => 0) 3 [] psiP 1 0
        + (1/3) * solPBCAt 4 1 1 1 (fun _ => 0) 3 [] psiP 1 2
        - (1/3) * solPBCAt 4 1 1 1 (fun _ => 0) 3 [] psiP 1 1 := by
  rw [solP_1]
  unfold normalize1
  rw [uP_sq]
  simp only [uP_0, uP_1, uP_2, uP_3]
  intro h
  have hs : (0 : ℝ) < Real.sqrt 86 := Real.sqrt_pos.mpr (by norm_num)
  have h3 : (0 : ℝ) < 1 / Real.sqrt 86 := by positivity
  nlinarith

/-- C10 (amended).  The extrapolation write of the periodic branch
establishes the one-sided relation at the moment it runs: immediately after
`px[-1] = px[0] + (1/3) px[-2] - (1/3) px[1]` (and before the kinetic
accumulation and the semi-implicit update of the same iteration), the last
point of the extrapolated field equals that combination of its own values,
for any axis extent `l ≥ 3`.  The relation does not persist to the end of
the step (see the counterexample), and the repository never actually
enables `pbc`. -/
theorem c10_pbc_extrapolation (l : ℕ) (px : ℕ → ℝ) (hl : 3 ≤ l) :
    pbc_extrap l px (l - 1)
      = pbc_extrap l px 0 + (1/3) * pbc_extrap l px (l - 2)
        - (1/3) * pbc_extrap l px 1 := by
  unfold pbc_extrap
  rw [if_pos rfl, if_neg (by omega : ¬(0 = l - 1)),
    if_neg (by omega : ¬(l - 2 = l - 1)), if_neg (by omega : ¬(1 = l - 1))]

/-- C10 (witness): the amended statement on the four-point field `psiP`. -/
theorem c10_pbc_extrapolation_witness :
    (3 : ℕ) ≤ 4
    ∧ pbc_extrap 4 psiP 3
      = pbc_extrap 4 psiP 0 + (1/3) * pbc_extrap 4 psiP 2 - (1/3) * pbc_extrap 4 psiP 1 :=
  ⟨by norm_num, c10_pbc_extrapolation 4 psiP (by norm_num)⟩
